import Mathlib

/-!
Verification of the substitute-job notification bot (src/main.py).

The development embeds the pure core of the program:
string splitting and trimming as Python's str.split / str.strip / str.upper,
the strptime-style 12-hour clock parsing used by format_notification,
the duration computation through timedelta.seconds, the notification policy
of process_rows, the retry loop of safe_click, and the row extraction step.
-/

namespace Chakram

/-- Python str.split() tokenizer: splits on runs of whitespace, drops empties.
First argument is the remaining characters, second the current token (reversed). -/
def wordsAux : List Char → List Char → List String
  | [], cur => if cur = [] then [] else [String.mk cur.reverse]
  | c :: cs, cur =>
    if c.isWhitespace then
      if cur = [] then wordsAux cs [] else String.mk cur.reverse :: wordsAux cs []
    else wordsAux cs (c :: cur)

/-- Python str.split() with no separator, as used throughout main.py. -/
def pySplit (s : String) : List String := wordsAux s.data []

/-- Drop whitespace from both ends of a character list. -/
def stripList (cs : List Char) : List Char :=
  ((cs.dropWhile Char.isWhitespace).reverse.dropWhile Char.isWhitespace).reverse

/-- Python str.strip(): trim whitespace from both ends. -/
def pyStrip (s : String) : String := String.mk (stripList s.data)

/-- ASCII lowercase test: 'a' ≤ c ≤ 'z'. -/
def isLowerAscii (c : Char) : Bool := 97 ≤ c.toNat && c.toNat ≤ 122

/-- Python str.upper() on one character (ASCII range, the range the data uses). -/
def pyCharUpper (c : Char) : Char :=
  if h : 97 ≤ c.toNat ∧ c.toNat ≤ 122 then
    Char.ofNatAux (c.toNat - 32) (Or.inl (by omega))
  else c

/-- Python str.upper(). -/
def pyUpper (s : String) : String := String.mk (s.data.map pyCharUpper)

/-- Whether pat occurs at the start of text. -/
def leadsWith : List Char → List Char → Bool
  | [], _ => true
  | _ :: _, [] => false
  | a :: as, b :: bs => a == b && leadsWith as bs

/-- Whether pat occurs contiguously somewhere in text. -/
def hasRun (pat : List Char) : List Char → Bool
  | [] => decide (pat = [])
  | c :: rest => leadsWith pat (c :: rest) || hasRun pat rest

/-- Python substring containment: pat in s. -/
def pyIn (pat s : String) : Bool := hasRun pat.data s.data

/-- Python " ".join-style joining with a separator. -/
def joinSep (sep : String) : List String → String
  | [] => ""
  | [t] => t
  | t :: ts => t ++ sep ++ joinSep sep ts

/-- Split a character list at every occurrence of sep, keeping empty segments,
as re-based strptime decomposes the HH:MM part at the literal colon. -/
def splitChar (sep : Char) : List Char → List (List Char)
  | [] => [[]]
  | c :: cs =>
    match splitChar sep cs with
    | [] => [[]]
    | t :: ts => if c = sep then [] :: t :: ts else (c :: t) :: ts

/-- strptime %I field: an hour 1..12, one digit 1-9 or two digits 01-09 / 10-12. -/
def parseHour : List Char → Option Nat
  | [c] => if 49 ≤ c.toNat ∧ c.toNat ≤ 57 then some (c.toNat - 48) else none
  | [c1, c2] =>
    if c1.toNat = 48 ∧ 49 ≤ c2.toNat ∧ c2.toNat ≤ 57 then some (c2.toNat - 48)
    else if c1.toNat = 49 ∧ 48 ≤ c2.toNat ∧ c2.toNat ≤ 50 then
      some (10 + (c2.toNat - 48))
    else none
  | _ => none

/-- strptime %M field: a minute 0..59, one digit or two digits with first 0-5. -/
def parseMinute : List Char → Option Nat
  | [c] => if 48 ≤ c.toNat ∧ c.toNat ≤ 57 then some (c.toNat - 48) else none
  | [c1, c2] =>
    if 48 ≤ c1.toNat ∧ c1.toNat ≤ 53 ∧ 48 ≤ c2.toNat ∧ c2.toNat ≤ 57 then
      some (10 * (c1.toNat - 48) + (c2.toNat - 48))
    else none
  | _ => none

/-- strptime %p field in the C locale, case-insensitive: AM gives false, PM true. -/
def parseAmPm : List Char → Option Bool
  | [x, y] =>
    if (x = 'A' ∨ x = 'a') ∧ (y = 'M' ∨ y = 'm') then some false
    else if (x = 'P' ∨ x = 'p') ∧ (y = 'M' ∨ y = 'm') then some true
    else none
  | _ => none

/-- datetime.strptime(t1 ++ " " ++ t2, "%I:%M %p") restricted to whitespace-free
tokens t1, t2 (they come from str.split), returning minutes since midnight.
12 AM maps to hour 0 and 12 PM to hour 12, as strptime does. -/
def parseClock (t1 t2 : String) : Option Nat :=
  match splitChar ':' t1.data with
  | [hs, ms] =>
    match parseHour hs, parseMinute ms, parseAmPm t2.data with
    | some h, some m, some pm =>
      some (((if h = 12 then 0 else h) + (if pm then 12 else 0)) * 60 + m)
    | _, _, _ => none
  | _ => none

/-- One scraped listing record (the row dict built in process_rows). -/
structure Row where
  date : String
  time : String
  classification : String
  location : String
deriving Inhabited, DecidableEq, Repr

/-- The allow-lists parsed from the ALLOWED_LOCS / ALLOWED_CLS environment
variables; the duration threshold itself is the literal 6 in process_rows. -/
structure Config where
  allowed_locations : List String
  allowed_classifications : List String
deriving Inhabited, DecidableEq, Repr

/-- CSV parsing of an allow-list environment variable (main.py lines 20-21):
split at commas, strip every piece, keep the nonempty ones. -/
def parseAllowList (s : String) : List String :=
  ((s.splitOn ",").map pyStrip).filter (fun t => t ≠ "")

/-- The duration computation of format_notification on the whitespace tokens of
row.time: with at least four tokens whose first two pairs both parse as 12-hour
clock times, (end_dt - start_dt).seconds / 3600; Python timedelta normalisation
makes .seconds the nonnegative value (end - start) * 60 mod 86400, i.e.
60 * ((end - start) mod 1440) seconds. Anything else leaves the default 7. -/
def durOf : List String → ℚ
  | t0 :: t1 :: t2 :: t3 :: _ =>
    (match parseClock t0 t1, parseClock t2 t3 with
     | some s, some e => Rat.divInt (60 * (((e : ℤ) - (s : ℤ)) % 1440)) 3600
     | _, _ => 7)
  | _ => 7

/-- Python f-string {x:.1f} on the (exact) duration value: one digit after the
point, ties rounded to even on the exact rational (Python applies the same
rounding to the nearest binary double of the value). -/
def formatOneDec (q : ℚ) : String :=
  let a := 10 * q.num
  let b := (q.den : ℤ)
  let fl := a / b
  let r := a - fl * b
  let n := if 2 * r < b then fl else if b < 2 * r then fl + 1
    else if fl % 2 = 0 then fl else fl + 1
  toString (n / 10) ++ "." ++ toString (n % 10)

/-- format_notification (main.py lines 39-62): builds the message string, the
two-token short location, and the duration in hours (sentinel 7 when the time
field does not yield two parseable clock times). -/
def format_notification (row : Row) : String × String × ℚ :=
  let short_loc := joinSep " " ((pySplit row.location).take 2)
  let classification := pyStrip row.classification
  let date_str := ((pySplit row.date).getLast?).getD ""
  let diff_hours := durOf (pySplit row.time)
  let message := short_loc ++ " - " ++ classification ++ " - " ++ date_str ++
    " - " ++ formatOneDec diff_hours ++ " hrs"
  (message, short_loc, diff_hours)

/-- The notification decision of process_rows (main.py lines 153-162): some
allowed classification is a substring of the uppercased, stripped
classification, some allowed location keyword is a substring of the uppercased,
stripped location, and the duration exceeds the hard-coded 6 hours. -/
def shouldNotify (cfg : Config) (row : Row) : Bool :=
  (cfg.allowed_classifications.any fun allowed =>
    pyIn allowed (pyStrip (pyUpper row.classification))) &&
  (cfg.allowed_locations.any fun keyword =>
    pyIn keyword (pyStrip (pyUpper row.location))) &&
  decide ((format_notification row).2.2 > 6)

/-- The start and end clock times format_notification would parse out of a
token list, when both parse: a specification-side observer of the same match
structure as durOf. -/
def timesOf : List String → Option (Nat × Nat)
  | t0 :: t1 :: t2 :: t3 :: _ =>
    (match parseClock t0 t1, parseClock t2 t3 with
     | some s, some e => some (s, e)
     | _, _ => none)
  | _ => none

/-- The start and end clock times format_notification parses out of row.time. -/
def parsedTimes (row : Row) : Option (Nat × Nat) := timesOf (pySplit row.time)

/-- safe_click (main.py lines 65-75), with the fallible scroll-and-click attempt
abstracted as a boolean outcome per attempt index (true = that attempt's
scroll/click succeeds) and the 0.2 s sleep elided. Returns the boolean result
together with the number of attempts actually made. The fuel argument counts
the remaining iterations of the for-loop and i the next attempt index. -/
def clickLoop (outcome : Nat → Bool) : Nat → Nat → Bool × Nat
  | 0, i => (false, i)
  | fuel + 1, i =>
    if outcome i then (true, i + 1) else clickLoop outcome fuel (i + 1)

/-- safe_click with an explicit retries count (the Python default is 5). -/
def safe_click (outcome : Nat → Bool) (retries : Nat) : Bool × Nat :=
  clickLoop outcome retries 0

/-- One row element of the DOM snapshot, as seen by process_rows: each of the
four cells looked up by id-prefix is either absent or carries its inner text. -/
structure DomRow where
  dateCell : Option String
  timeCell : Option String
  classificationCell : Option String
  locationCell : Option String
deriving Inhabited, DecidableEq, Repr

/-- The per-row field extraction of process_rows (main.py lines 142-147): a
present cell contributes its stripped inner text, an absent one "". -/
def extractRow (r : DomRow) : Row :=
  { date := (r.dateCell.map pyStrip).getD ""
    time := (r.timeCell.map pyStrip).getD ""
    classification := (r.classificationCell.map pyStrip).getD ""
    location := (r.locationCell.map pyStrip).getD "" }

/-- The extraction pass over all row elements, in DOM order. -/
def extract (doms : List DomRow) : List Row := doms.map extractRow

/-- The spec's worked example row. -/
def lincolnRow : Row :=
  { date := "Mon, 03/10/2026"
    time := "8:00 AM 3:30 PM EST 3:30 PM"
    classification := "Long Term Sub"
    location := "LINCOLN ELEMENTARY SCHOOL" }

/-- The spec's worked example configuration. -/
def lincolnConfig : Config :=
  { allowed_locations := ["LINCOLN"], allowed_classifications := ["LONG TERM"] }

/-- An overnight row: end time-of-day strictly before the start time-of-day. -/
def overnightRow : Row :=
  { date := "Mon, 03/10/2026"
    time := "4:00 PM 9:00 AM EST 9:00 AM"
    classification := "Long Term Sub"
    location := "LINCOLN ELEMENTARY SCHOOL" }

/-- A row whose time range lies within one day, start before end. -/
def morningRow : Row :=
  { date := "", time := "9:00 AM 4:00 PM EST 4:00 PM", classification := "",
    location := "" }

/-- A row whose parsed duration is exactly the 6-hour threshold. -/
def sixHourRow : Row :=
  { date := "Mon, 03/10/2026"
    time := "9:00 AM 3:00 PM EST 3:00 PM"
    classification := "Long Term Sub"
    location := "LINCOLN ELEMENTARY SCHOOL" }

/-- The spec's negative scenario configuration. -/
def jeffersonConfig : Config :=
  { allowed_locations := ["JEFFERSON"], allowed_classifications := ["LONG TERM"] }

/-- A DOM row element missing its date and classification cells. -/
def missingCellDom : DomRow :=
  { dateCell := none
    timeCell := some " 8:00 AM 3:30 PM EST 3:30 PM "
    classificationCell := none
    locationCell := some "LINCOLN ELEMENTARY SCHOOL" }

/-! ## Helper lemmas about the duration computation -/

lemma format_notification_dur (row : Row) :
    (format_notification row).2.2 = durOf (pySplit row.time) := rfl

lemma durOf_parsed (t0 t1 t2 t3 : String) (rest : List String) (s e : Nat)
    (h1 : parseClock t0 t1 = some s) (h2 : parseClock t2 t3 = some e) :
    durOf (t0 :: t1 :: t2 :: t3 :: rest) =
      Rat.divInt (60 * (((e : ℤ) - (s : ℤ)) % 1440)) 3600 := by
  simp [durOf, h1, h2]

lemma parseHour_bound {cs : List Char} {h : Nat} (hp : parseHour cs = some h) :
    1 ≤ h ∧ h ≤ 12 := by
  rcases cs with _ | ⟨c, _ | ⟨c2, _ | ⟨c3, t⟩⟩⟩
  · exact absurd hp (by simp [parseHour])
  · simp only [parseHour] at hp
    split at hp
    · simp only [Option.some.injEq] at hp
      omega
    · exact absurd hp (by simp)
  · simp only [parseHour] at hp
    split at hp
    · simp only [Option.some.injEq] at hp
      omega
    · split at hp
      · simp only [Option.some.injEq] at hp
        omega
      · exact absurd hp (by simp)
  · exact absurd hp (by simp [parseHour])

lemma parseMinute_bound {cs : List Char} {m : Nat} (hp : parseMinute cs = some m) :
    m ≤ 59 := by
  rcases cs with _ | ⟨c, _ | ⟨c2, _ | ⟨c3, t⟩⟩⟩
  · exact absurd hp (by simp [parseMinute])
  · simp only [parseMinute] at hp
    split at hp
    · simp only [Option.some.injEq] at hp
      omega
    · exact absurd hp (by simp)
  · simp only [parseMinute] at hp
    split at hp
    · simp only [Option.some.injEq] at hp
      omega
    · exact absurd hp (by simp)
  · exact absurd hp (by simp [parseMinute])

lemma parseClock_lt {t1 t2 : String} {n : Nat} (hp : parseClock t1 t2 = some n) :
    n < 1440 := by
  unfold parseClock at hp
  split at hp
  · split at hp
    · rename_i h m pm hh hm hpm
      simp only [Option.some.injEq] at hp
      have hb := parseHour_bound hh
      have mb := parseMinute_bound hm
      subst hp
      split <;> split <;> omega
    · exact absurd hp (by simp)
  · exact absurd hp (by simp)

lemma timesOf_dur {ts : List String} {s e : Nat} (h : timesOf ts = some (s, e)) :
    durOf ts = Rat.divInt (60 * (((e : ℤ) - (s : ℤ)) % 1440)) 3600 ∧
      s < 1440 ∧ e < 1440 := by
  rcases ts with _ | ⟨t0, _ | ⟨t1, _ | ⟨t2, _ | ⟨t3, rest⟩⟩⟩⟩
  · exact absurd h (by simp [timesOf])
  · exact absurd h (by simp [timesOf])
  · exact absurd h (by simp [timesOf])
  · exact absurd h (by simp [timesOf])
  simp only [timesOf] at h
  rcases h1 : parseClock t0 t1 with _ | s' <;> rw [h1] at h
  · exact absurd h (by simp)
  rcases h2 : parseClock t2 t3 with _ | e' <;> rw [h2] at h
  · exact absurd h (by simp)
  simp only [Option.some.injEq, Prod.mk.injEq] at h
  obtain ⟨rfl, rfl⟩ := h
  exact ⟨by simp [durOf, h1, h2], parseClock_lt h1, parseClock_lt h2⟩

lemma parsedTimes_dur {row : Row} {s e : Nat} (h : parsedTimes row = some (s, e)) :
    (format_notification row).2.2 =
      Rat.divInt (60 * (((e : ℤ) - (s : ℤ)) % 1440)) 3600 ∧ s < 1440 ∧ e < 1440 := by
  have := timesOf_dur (h : timesOf (pySplit row.time) = some (s, e))
  exact ⟨by rw [format_notification_dur]; exact this.1, this.2⟩

lemma dur_wrap_nonneg {m : ℤ} (h0 : 0 ≤ m) (hlt : m < 1440) :
    0 ≤ Rat.divInt (60 * m) 3600 ∧ Rat.divInt (60 * m) 3600 < 24 := by
  rw [Rat.divInt_eq_div]
  constructor
  · apply div_nonneg _ (by norm_num)
    exact_mod_cast (by omega : (0 : ℤ) ≤ 60 * m)
  · rw [div_lt_iff₀ (by norm_num : (0 : ℚ) < ((3600 : ℤ) : ℚ))]
    exact_mod_cast (by omega : (60 * m : ℤ) < 24 * 3600)

/-! ## The claims -/

/-- C1 (corrected): for a Row whose time splits into at least four tokens with
both leading pairs parsing as 12-hour clock times, durationHours is the
wall-clock difference end minus start in hours provided the end time-of-day is
not before the start (9:00 AM to 4:00 PM gives exactly (960 − 540)/60 = 7).
Without that restriction the claim fails: an overnight range wraps instead of
going negative, see the counterexample. -/
theorem duration_wallclock_of_ordered (row : Row) (t0 t1 t2 t3 : String)
    (rest : List String) (s e : Nat)
    (hsp : pySplit row.time = t0 :: t1 :: t2 :: t3 :: rest)
    (h1 : parseClock t0 t1 = some s) (h2 : parseClock t2 t3 = some e)
    (hord : s ≤ e) :
    (format_notification row).2.2 = ((e : ℚ) - (s : ℚ)) / 60 := by
  have ht : parsedTimes row = some (s, e) := by
    show timesOf (pySplit row.time) = some (s, e)
    rw [hsp]
    simp [timesOf, h1, h2]
  obtain ⟨hd, hs, he⟩ := parsedTimes_dur ht
  rw [hd]
  have hm : ((e : ℤ) - (s : ℤ)) % 1440 = (e : ℤ) - (s : ℤ) := by omega
  rw [hm, Rat.divInt_eq_div]
  push_cast
  rw [div_eq_div_iff (by norm_num) (by norm_num)]
  ring

/-- C1 witness: the 9:00 AM / 4:00 PM row computes (960 − 540)/60 hours. -/
theorem duration_wallclock_of_ordered_witness :
    (format_notification morningRow).2.2 = ((960 : ℚ) - (540 : ℚ)) / 60 :=
  duration_wallclock_of_ordered morningRow "9:00" "AM" "4:00" "PM"
    ["EST", "4:00", "PM"] 540 960 (by decide) (by decide) (by decide) (by decide)

/-- C1 counterexample: overnightRow's four leading time tokens parse (start
4:00 PM = 960 minutes, end 9:00 AM = 540 minutes), the claim's wall-clock
difference end minus start is (540 − 960)/60 = −7 hours, yet the code returns
17. -/
theorem duration_wallclock_cex :
    pySplit overnightRow.time =
      ["4:00", "PM", "9:00", "AM", "EST", "9:00", "AM"] ∧
    parseClock "4:00" "PM" = some 960 ∧ parseClock "9:00" "AM" = some 540 ∧
    (format_notification overnightRow).2.2 = 17 ∧
    (format_notification overnightRow).2.2 ≠ ((540 : ℚ) - (960 : ℚ)) / 60 := by
  refine ⟨by decide, by decide, by decide, by decide, ?_⟩
  have h : (format_notification overnightRow).2.2 = 17 := by decide
  rw [h]
  norm_num

/-- C2: a Row whose time has fewer than four whitespace tokens, or whose first
four tokens do not both parse as HH:MM AM/PM pairs, gets the sentinel duration
7.0; format_notification is a total function, so no error is raised. -/
theorem sentinel_on_parse_failure (row : Row)
    (h : (pySplit row.time).length < 4 ∨
      ∀ t0 t1 t2 t3 rest, pySplit row.time = t0 :: t1 :: t2 :: t3 :: rest →
        parseClock t0 t1 = none ∨ parseClock t2 t3 = none) :
    (format_notification row).2.2 = 7 := by
  rw [format_notification_dur]
  rcases hsp : pySplit row.time with _ | ⟨t0, _ | ⟨t1, _ | ⟨t2, _ | ⟨t3, rest⟩⟩⟩⟩
  · simp [durOf]
  · simp [durOf]
  · simp [durOf]
  · simp [durOf]
  · rcases h with h | h
    · rw [hsp] at h
      simp at h
      omega
    · rcases h t0 t1 t2 t3 rest hsp with h1 | h1
      · rcases h2 : parseClock t2 t3 with _ | e <;> simp [durOf, h1, h2]
      · rcases h2 : parseClock t0 t1 with _ | s <;> simp [durOf, h1, h2]

/-- C2 witness: a one-token time falls back to the sentinel 7. -/
theorem sentinel_on_parse_failure_witness :
    (format_notification
      { date := "", time := "whenever", classification := "", location := "" }).2.2
      = 7 :=
  sentinel_on_parse_failure _ (Or.inl (by decide))

/-- C3: shouldNotify can be true only when durationHours strictly exceeds the
6-hour threshold (the code's min_duration_hours); at exactly 6 hours it is
false even when both substring conditions match. -/
theorem notify_needs_strict_duration (cfg : Config) (row : Row) :
    (shouldNotify cfg row = true → 6 < (format_notification row).2.2) ∧
    ((format_notification row).2.2 = 6 → shouldNotify cfg row = false) := by
  constructor
  · intro h
    have h3 : decide ((format_notification row).2.2 > 6) = true := by
      simp only [shouldNotify, Bool.and_eq_true] at h
      exact h.2
    exact of_decide_eq_true h3
  · intro h6
    simp [shouldNotify, h6]

/-- C3 witness: a true decision with duration 7.5 > 6, and a false decision on
a row matching both substring conditions with duration exactly 6. -/
theorem notify_needs_strict_duration_witness :
    6 < (format_notification lincolnRow).2.2 ∧
      shouldNotify lincolnConfig sixHourRow = false :=
  ⟨(notify_needs_strict_duration lincolnConfig lincolnRow).1 (by decide),
   (notify_needs_strict_duration lincolnConfig sixHourRow).2 (by decide)⟩

/-- C4: with an empty allowed classifications list or an empty allowed
locations list, shouldNotify is false regardless of the row: the existential
substring match over an empty list is vacuously false (fail-closed). -/
theorem notify_fail_closed_on_empty (cfg : Config) (row : Row)
    (h : cfg.allowed_classifications = [] ∨ cfg.allowed_locations = []) :
    shouldNotify cfg row = false := by
  rcases h with h | h <;> simp [shouldNotify, h]

/-- C4 witness: an eligible row is still rejected under an empty
classification allow-list. -/
theorem notify_fail_closed_on_empty_witness :
    shouldNotify
      { allowed_locations := ["LINCOLN"], allowed_classifications := [] }
      lincolnRow = false :=
  notify_fail_closed_on_empty _ lincolnRow (Or.inl rfl)

/-- C5: the spec's worked scenario: duration 7.5 hours, the exact message
text, shouldNotify true under the LINCOLN/LONG TERM configuration, and false
once allowed_locations is ["JEFFERSON"]. -/
theorem lincoln_scenario :
    (format_notification lincolnRow).2.2 = 7.5 ∧
    (format_notification lincolnRow).1 =
      "LINCOLN ELEMENTARY - Long Term Sub - 03/10/2026 - 7.5 hrs" ∧
    shouldNotify lincolnConfig lincolnRow = true ∧
    shouldNotify jeffersonConfig lincolnRow = false := by
  refine ⟨?_, by decide, by decide, by decide⟩
  have h : (format_notification lincolnRow).2.2 = Rat.divInt 15 2 := by decide
  rw [h, Rat.divInt_eq_div]
  norm_num

/-- C6 counterexample: no parsed Row has a negative durationHours — in
particular no overnight one — refuting the claim that some Row with end
earlier than start computes a negative duration. -/
theorem no_negative_duration_cex :
    ¬ ∃ (row : Row) (s e : Nat), parsedTimes row = some (s, e) ∧ e < s ∧
        (format_notification row).2.2 < 0 := by
  rintro ⟨row, s, e, hp, _, hneg⟩
  obtain ⟨hd, hs, he⟩ := parsedTimes_dur hp
  rw [hd] at hneg
  exact absurd (dur_wrap_nonneg (by omega) (by omega)).1 (not_le.mpr hneg)

/-- C6 (corrected): for a parsed Row whose end time-of-day is strictly earlier
than its start, the duration does not go negative: it wraps to
(1440 − (start − end))/60 hours, which is nonnegative. -/
theorem overnight_duration_wraps (row : Row) (s e : Nat)
    (h : parsedTimes row = some (s, e)) (hlt : e < s) :
    (format_notification row).2.2 = ((1440 : ℚ) - ((s : ℚ) - (e : ℚ))) / 60 ∧
      0 ≤ (format_notification row).2.2 := by
  obtain ⟨hd, hs, he⟩ := parsedTimes_dur h
  constructor
  · rw [hd]
    have hm : ((e : ℤ) - (s : ℤ)) % 1440 = (e : ℤ) - (s : ℤ) + 1440 := by omega
    rw [hm, Rat.divInt_eq_div]
    push_cast
    rw [div_eq_div_iff (by norm_num) (by norm_num)]
    ring
  · rw [hd]
    exact (dur_wrap_nonneg (by omega) (by omega)).1

/-- C6 witness: the 4:00 PM to 9:00 AM row wraps to (1440 − 420)/60 = 17. -/
theorem overnight_duration_wraps_witness :
    (format_notification overnightRow).2.2 =
      ((1440 : ℚ) - ((960 : ℚ) - (540 : ℚ))) / 60 ∧
      0 ≤ (format_notification overnightRow).2.2 :=
  overnight_duration_wraps overnightRow 960 540 (by decide) (by decide)

/-- C9: for every Row whose time parses, durationHours lies in [0, 24): the
subtraction goes through timedelta's seconds component, which wraps an end
time-of-day earlier than the start to 24 hours minus the gap. -/
theorem duration_in_day_range (row : Row) (s e : Nat)
    (h : parsedTimes row = some (s, e)) :
    0 ≤ (format_notification row).2.2 ∧ (format_notification row).2.2 < 24 := by
  obtain ⟨hd, hs, he⟩ := parsedTimes_dur h
  rw [hd]
  exact dur_wrap_nonneg (by omega) (by omega)

/-- C9 witness: the worked example row parses to (480, 930) and its duration
lies in [0, 24). -/
theorem duration_in_day_range_witness :
    0 ≤ (format_notification lincolnRow).2.2 ∧
      (format_notification lincolnRow).2.2 < 24 :=
  duration_in_day_range lincolnRow 480 930 (by decide)

/-! ## The retry loop -/

lemma clickLoop_all_fail (outcome : Nat → Bool) :
    ∀ fuel i, (∀ k, k < fuel → outcome (i + k) = false) →
      clickLoop outcome fuel i = (false, i + fuel) := by
  intro fuel
  induction fuel with
  | zero => intro i _; simp [clickLoop]
  | succ n ih =>
    intro i h
    have h0 : outcome i = false := by simpa using h 0 (by omega)
    have hrest : ∀ k, k < n → outcome (i + 1 + k) = false := by
      intro k hk
      have hh := h (k + 1) (by omega)
      have e : i + (k + 1) = i + 1 + k := by omega
      rwa [e] at hh
    calc clickLoop outcome (n + 1) i = clickLoop outcome n (i + 1) := by
          simp [clickLoop, h0]
      _ = (false, i + 1 + n) := ih (i + 1) hrest
      _ = (false, i + (n + 1)) := by
          have e : i + 1 + n = i + (n + 1) := by omega
          rw [e]

lemma clickLoop_first_success (outcome : Nat → Bool) :
    ∀ fuel i k, k < fuel → outcome (i + k) = true →
      (∀ j, j < k → outcome (i + j) = false) →
      clickLoop outcome fuel i = (true, i + k + 1) := by
  intro fuel
  induction fuel with
  | zero => intro i k hk _ _; exact absurd hk (by omega)
  | succ n ih =>
    intro i k hk hs hf
    cases k with
    | zero =>
      have h0 : outcome i = true := by simpa using hs
      simp [clickLoop, h0]
    | succ k' =>
      have h0 : outcome i = false := by simpa using hf 0 (by omega)
      have hs' : outcome (i + 1 + k') = true := by
        have e : i + (k' + 1) = i + 1 + k' := by omega
        rwa [e] at hs
      have hf' : ∀ j, j < k' → outcome (i + 1 + j) = false := by
        intro j hj
        have hh := hf (j + 1) (by omega)
        have e : i + (j + 1) = i + 1 + j := by omega
        rwa [e] at hh
      calc clickLoop outcome (n + 1) i = clickLoop outcome n (i + 1) := by
            simp [clickLoop, h0]
        _ = (true, i + 1 + k' + 1) := ih (i + 1) k' (by omega) hs' hf'
        _ = (true, i + (k' + 1) + 1) := by
            have e : i + 1 + k' + 1 = i + (k' + 1) + 1 := by omega
            rw [e]

lemma clickLoop_count_le (outcome : Nat → Bool) :
    ∀ fuel i, (clickLoop outcome fuel i).2 ≤ i + fuel := by
  intro fuel
  induction fuel with
  | zero => intro i; simp [clickLoop]
  | succ n ih =>
    intro i
    by_cases h : outcome i
    · simp [clickLoop, h]
    · have hle := ih (i + 1)
      simp only [clickLoop, h, Bool.false_eq_true, if_false]
      omega

/-- C7: safe_click makes at most retries attempts (the call sites use the
default 5): when every attempt fails it returns false after exactly retries
attempts, without raising (the model is total); when the first succeeding
attempt is attempt k (0-based) among the first retries, it returns true right
there, after k + 1 attempts — e.g. four failures then a success on the fifth
attempt with retries = 5 gives (true, 5). -/
theorem safe_click_bounded_retry (outcome : Nat → Bool) (retries : Nat) :
    ((∀ i, i < retries → outcome i = false) →
      safe_click outcome retries = (false, retries)) ∧
    (∀ k, k < retries → outcome k = true →
      (∀ j, j < k → outcome j = false) →
      safe_click outcome retries = (true, k + 1)) ∧
    (safe_click outcome retries).2 ≤ retries := by
  refine ⟨fun h => ?_, fun k hk hs hf => ?_, ?_⟩
  · have hh := clickLoop_all_fail outcome retries 0 (fun k hk => by
      simpa using h k hk)
    simpa [safe_click] using hh
  · have hh := clickLoop_first_success outcome retries 0 k hk (by simpa using hs)
      (fun j hj => by simpa using hf j hj)
    simpa [safe_click] using hh
  · have hh := clickLoop_count_le outcome retries 0
    simpa [safe_click] using hh

/-- C7 witness: an outcome failing on attempts 0–3 and succeeding on attempt 4
gives (true, 5) with retries = 5; an always-failing outcome gives (false, 5). -/
theorem safe_click_bounded_retry_witness :
    safe_click (fun i => decide (i = 4)) 5 = (true, 5) ∧
    safe_click (fun _ => false) 5 = (false, 5) :=
  ⟨(safe_click_bounded_retry (fun i => decide (i = 4)) 5).2.1 4 (by decide)
      (by decide) (by decide),
   (safe_click_bounded_retry (fun _ => false) 5).1 (fun _ _ => rfl)⟩

/-! ## Row extraction -/

lemma getD_map_extract (doms : List DomRow) (i : Nat) :
    (extract doms).getD i default = extractRow (doms.getD i default) := by
  induction doms generalizing i with
  | nil => simp [extract]; rfl
  | cons d ds ih =>
    cases i with
    | zero => simp [extract]
    | succ n => simpa [extract] using ih n

/-- C8: extraction yields one Row per DOM row element, in DOM order, and a row
element missing one of the four cells yields "" in the corresponding field —
the row is neither dropped nor does anything raise (the model is total). -/
theorem extract_total_rows (doms : List DomRow) (i : Nat)
    (hi : i < doms.length) :
    (extract doms).length = doms.length ∧
    (extract doms).getD i default = extractRow (doms.getD i default) ∧
    ((doms.getD i default).dateCell = none →
      ((extract doms).getD i default).date = "") ∧
    ((doms.getD i default).timeCell = none →
      ((extract doms).getD i default).time = "") ∧
    ((doms.getD i default).classificationCell = none →
      ((extract doms).getD i default).classification = "") ∧
    ((doms.getD i default).locationCell = none →
      ((extract doms).getD i default).location = "") := by
  refine ⟨by simp [extract], getD_map_extract doms i, ?_, ?_, ?_, ?_⟩ <;>
    intro h <;> rw [getD_map_extract doms i] <;>
    simp only [extractRow, h, Option.map_none', Option.getD_none]

/-- C8 witness: a one-element snapshot whose row misses two cells still
extracts to one Row with "" in the missing fields. -/
theorem extract_total_rows_witness :
    (extract [missingCellDom]).length = [missingCellDom].length ∧
    (extract [missingCellDom]).getD 0 default =
      extractRow ([missingCellDom].getD 0 default) ∧
    (([missingCellDom].getD 0 default).dateCell = none →
      ((extract [missingCellDom]).getD 0 default).date = "") ∧
    (([missingCellDom].getD 0 default).timeCell = none →
      ((extract [missingCellDom]).getD 0 default).time = "") ∧
    (([missingCellDom].getD 0 default).classificationCell = none →
      ((extract [missingCellDom]).getD 0 default).classification = "") ∧
    (([missingCellDom].getD 0 default).locationCell = none →
      ((extract [missingCellDom]).getD 0 default).location = "") :=
  extract_total_rows [missingCellDom] 0 (by decide)

/-! ## Case sensitivity of the allow-lists -/

lemma leadsWith_mem {pat text : List Char} (h : leadsWith pat text = true) :
    ∀ c ∈ pat, c ∈ text := by
  induction pat generalizing text with
  | nil => intro c hc; exact absurd hc (by simp)
  | cons a as ih =>
    cases text with
    | nil => exact absurd h (by simp [leadsWith])
    | cons b bs =>
      simp only [leadsWith, Bool.and_eq_true, beq_iff_eq] at h
      intro c hc
      rcases List.mem_cons.mp hc with rfl | hc
      · rw [h.1]
        exact List.mem_cons_self b bs
      · exact List.mem_cons_of_mem b (ih h.2 c hc)

lemma hasRun_mem {pat text : List Char} (h : hasRun pat text = true) :
    ∀ c ∈ pat, c ∈ text := by
  induction text with
  | nil =>
    intro c hc
    simp only [hasRun, decide_eq_true_eq] at h
    subst h
    exact absurd hc (by simp)
  | cons b bs ih =>
    simp only [hasRun, Bool.or_eq_true] at h
    intro c hc
    rcases h with h | h
    · exact leadsWith_mem h c hc
    · exact List.mem_cons_of_mem b (ih h c hc)

lemma mem_stripList {c : Char} {cs : List Char} (h : c ∈ stripList cs) :
    c ∈ cs := by
  unfold stripList at h
  have h1 := List.mem_reverse.mp h
  have h2 := (List.dropWhile_sublist _).subset h1
  have h3 := List.mem_reverse.mp h2
  exact (List.dropWhile_sublist _).subset h3

lemma toNat_ofNatAux (n : Nat) (h : n.isValidChar) :
    (Char.ofNatAux n h).toNat = n := rfl

lemma pyCharUpper_not_lower (c : Char) :
    isLowerAscii (pyCharUpper c) = false := by
  rw [← Bool.not_eq_true]
  unfold pyCharUpper
  split
  · rename_i h
    unfold isLowerAscii
    rw [toNat_ofNatAux]
    simp only [Bool.and_eq_true, decide_eq_true_eq]
    omega
  · rename_i h
    simp only [isLowerAscii, Bool.and_eq_true, decide_eq_true_eq]
    exact h

lemma mem_upperStrip {c : Char} {s : String}
    (h : c ∈ (pyStrip (pyUpper s)).data) : isLowerAscii c = false := by
  have h1 : c ∈ (pyUpper s).data := mem_stripList h
  obtain ⟨c', hc', rfl⟩ := List.mem_map.mp h1
  exact pyCharUpper_not_lower c'

/-- C10: the policy's substring matching is case-sensitive on the allow-list
side: the row's classification and location are uppercased before comparison
while allow-list entries are used verbatim, so when every allowed
classification (or every allowed location) contains an ASCII lowercase
letter, shouldNotify is false whatever the row holds. -/
theorem notify_case_sensitive_entries (cfg : Config) (row : Row)
    (h : (∀ a ∈ cfg.allowed_classifications, ∃ c ∈ a.data,
            isLowerAscii c = true) ∨
         (∀ a ∈ cfg.allowed_locations, ∃ c ∈ a.data, isLowerAscii c = true)) :
    shouldNotify cfg row = false := by
  rcases h with h | h
  · have hany : (cfg.allowed_classifications.any fun allowed =>
        pyIn allowed (pyStrip (pyUpper row.classification))) = false := by
      rw [List.any_eq_false]
      intro a ha hin
      obtain ⟨c, hc, hlow⟩ := h a ha
      have hmem := hasRun_mem hin c hc
      have hup := mem_upperStrip hmem
      rw [hlow] at hup
      exact absurd hup (by simp)
    simp [shouldNotify, hany]
  · have hany : (cfg.allowed_locations.any fun keyword =>
        pyIn keyword (pyStrip (pyUpper row.location))) = false := by
      rw [List.any_eq_false]
      intro a ha hin
      obtain ⟨c, hc, hlow⟩ := h a ha
      have hmem := hasRun_mem hin c hc
      have hup := mem_upperStrip hmem
      rw [hlow] at hup
      exact absurd hup (by simp)
    simp [shouldNotify, hany]

/-- C10 witness: the worked example row, which notifies under the uppercase
allow-list, is rejected once the classification entry is the mixed-case
"Long Term". -/
theorem notify_case_sensitive_entries_witness :
    shouldNotify
      { allowed_locations := ["LINCOLN"], allowed_classifications := ["Long Term"] }
      lincolnRow = false :=
  notify_case_sensitive_entries _ lincolnRow (Or.inl (by decide))

end Chakram
